import Mathlib

/-!
Shallow embedding of the `Blockchain` class of `src/app.ts` (a minimal
append-only hash chain with star-ownership verification).

The `Block` class (`./block`) and the `crypto-js` / `bitcoinjs-message`
libraries are external to the repository; the parts of their behaviour the
claims depend on are modelled from the spec, and each such definition says so
in its doc comment.  Promise-based methods are embedded as pure functions:
resolve/reject becomes `Except`, the mutable `this` is passed and returned
explicitly, and the current wall-clock time is an explicit argument.
-/

/-- A block's payload (`body` content): either the genesis-style
`{data: ...}` object or a star registration `{owner, star}` object
(`submitStar` line 210). The star itself is kept opaque as a string. -/
inductive Payload where
  | data (s : String)
  | star (owner : String) (starData : String)
deriving DecidableEq, Repr

/-- Modelled from the spec: the external `Block` record (spec section 3), an
"immutable-after-seal record holding a payload, height, timestamp,
previous-block-hash reference, and self-hash".  `previousBlockHash` and `hash`
are `Option` because both are absent (null) until stamped by the append path;
`height` is `Int` because the chain's height counter starts at `-1`. -/
structure Block where
  body : Payload
  height : Int
  time : Int
  previousBlockHash : Option String
  hash : Option String
deriving DecidableEq, Repr

instance : Inhabited Block := ⟨⟨Payload.data "", 0, 0, none, none⟩⟩

/-- Modelled from the spec: `new Block(data)` stores the payload and leaves
height/time at zero and both hash fields unset (sentinel/absent). -/
def mkBlock (p : Payload) : Block :=
  { body := p, height := 0, time := 0, previousBlockHash := none, hash := none }

/-- Injective string rendering of a payload, used by the digest stand-in. -/
def encPayload : Payload → String
  | .data s => "data:" ++ s ++ ";"
  | .star o st => "star:" ++ o ++ "|" ++ st ++ ";"

/-- Modelled from the spec: `SHA256(JSON.stringify(block)).toString()`
(line 154) — a deterministic digest over the block's canonical serialization
"excluding the hash field itself at compute time" (spec section 3; the hash
field is still null when the digest is taken).  SHA256 is an external
primitive, so a concrete deterministic stand-in digest over the remaining
fields is used. -/
def hashFn (b : Block) : String :=
  "sha(" ++ toString b.height ++ "," ++ toString b.time ++ ","
    ++ encPayload b.body ++ "," ++ b.previousBlockHash.getD "null" ++ ")"

/-- Modelled from the spec: `block.validate()` — "hash recomputed from its
current field values must equal its stored hash" (spec section 4.3a). -/
def blockValidate (b : Block) : Bool :=
  b.hash == some (hashFn b)

/-- Modelled from the spec: `block.getBData()` decodes the payload and fails
(rejects) for non-conforming blocks such as the Genesis Block, which sits at
height 0 (spec section 4.4: "decode failures for non-conforming blocks
(e.g., the Genesis Block) are silently skipped"). -/
def getBData (b : Block) : Option Payload :=
  if b.height = 0 then none else some b.body

/-- The `owner` field of a decoded payload; a genesis-style payload has no
such field (JS `message['owner']` is undefined there). -/
def payloadOwner : Payload → Option String
  | .data _ => none
  | .star o _ => some o

/-- The mutable state of the `Blockchain` class: the `chain` array and the
redundant `height` counter (lines 77-78). -/
structure Blockchain where
  chain : List Block
  height : Int
deriving DecidableEq, Repr

/-- The errors one block contributes in `validateChain` (lines 296-307): the
self-validation error is pushed first, then the linkage error; the linkage
check indexes the stored chain by the block's own `height` field, exactly as
`self.chain[height]` does. -/
def blockErrors (chain : List Block) (b : Block) : List String :=
  (if blockValidate b then []
   else ["Block at height " ++ toString b.height ++ " is not valid"])
  ++
  (if b.height > 0 ∧
      (chain.getD b.height.toNat default).previousBlockHash ≠
        (chain.getD (b.height.toNat - 1) default).hash then
    ["Block " ++ toString b.height ++ " previousBlockHash is not the same as the previous hash"]
   else [])

/-- The method `validateChain()` (lines 288-312): walk the whole chain in ascending
order, accumulating every block's errors into `errorLog`. -/
def validateChain (chain : List Block) : List String :=
  chain.foldl (fun errorLog b => errorLog ++ blockErrors chain b) []

/-- The field stamping `_addBlock` performs on the candidate before
validation (lines 148-154): `previousBlockHash` from the current tip when the
chain is non-empty, then `height`, `time` and finally the digest `hash`. -/
def stampBlock (self : Blockchain) (b : Block) (now : Int) : Block :=
  let b1 := if self.height > -1 then
      { b with previousBlockHash := (self.chain.getD self.height.toNat default).hash }
    else b
  let b2 := { b1 with height := self.height + 1, time := now }
  { b2 with hash := some (hashFn b2) }

/-- Outcome of one `_addBlock` call: the promise result, the state of the
`Blockchain` object afterwards, and the final state of the (mutated)
candidate block object that was passed in. -/
structure AddResult where
  result : Except (List String) Block
  self : Blockchain
  candidate : Block
deriving Repr

/-- The method `_addBlock(block)` (lines 145-167): stamp the candidate, validate the
currently stored chain, and only on zero errors push the candidate and bump
`height`; otherwise reject with the error list, leaving the store untouched. -/
def addBlockImpl (self : Blockchain) (b : Block) (now : Int) : AddResult :=
  let stamped := stampBlock self b now
  let errors := validateChain self.chain
  if errors = [] then
    { result := .ok stamped
      self := { chain := self.chain ++ [stamped], height := self.height + 1 }
      candidate := stamped }
  else
    { result := .error errors, self := self, candidate := stamped }

/-- The constructor plus `initializeChain()` (lines 88-104): start with an
empty chain at height `-1`, then append the Genesis Block.  `now` is the
genesis timestamp. -/
def Blockchain.new (now : Int) : Blockchain :=
  let self : Blockchain := { chain := [], height := -1 }
  if self.height = -1 then
    (addBlockImpl self (mkBlock (Payload.data "Genesis Block")) now).self
  else self

/-- Modelled from the spec: the JS `message.split(':')` — cut the string at
every colon, keeping empty pieces, so the result always has at least one
element. -/
def splitOnChar (c : Char) : List Char → List (List Char)
  | [] => [[]]
  | x :: rest =>
      if x = c then [] :: splitOnChar c rest
      else
        match splitOnChar c rest with
        | [] => [[x]]
        | g :: gs => (x :: g) :: gs

/-- Splits a string at every colon, as `message.split(':')` does. -/
def splitColon (s : String) : List String :=
  (splitOnChar ':' s.toList).map String.mk

/-- The longest leading decimal-digit run of a character list, as a number;
`none` when there is no leading digit. -/
def parseDigits (cs : List Char) : Option Nat :=
  let ds := cs.takeWhile Char.isDigit
  if ds.isEmpty then none
  else some (ds.foldl (fun n c => n * 10 + (c.toNat - 48)) 0)

/-- Modelled from the spec: the JS builtin `parseInt` applied to a decimal
string (the message's second field is an epoch-seconds decimal, spec
section 4.2 step 1): skip leading whitespace, allow one sign, read the
longest leading digit run; `none` stands for `NaN` when no digit is found
(also covering `parseInt(undefined)` for a message with no second field).
Radix-prefix forms such as `0x...` are not modelled. -/
def parseIntJS (s : String) : Option Int :=
  match s.toList.dropWhile Char.isWhitespace with
  | '-' :: rest => (parseDigits rest).map (fun n => -(n : Int))
  | '+' :: rest => (parseDigits rest).map (fun n => (n : Int))
  | cs => (parseDigits cs).map (fun n => (n : Int))

/-- The time-window test of `submitStar` (line 205):
`Math.floor((currentTime - time) / 60) > 5`.  When `parseInt` returned `NaN`
the whole arithmetic is `NaN` and the JS comparison `NaN > 5` is `false`, so
the branch is not taken. -/
def submitExpired (currentTime : Int) : Option Int → Bool
  | none => false
  | some t => decide ((currentTime - t).fdiv 60 > 5)

/-- Outcome of the external `bitcoinMessage.verify(message, address,
signature)` call: it either returns a boolean or throws with a message. -/
inductive VerifyOutcome where
  | ok (b : Bool)
  | throws (msg : String)
deriving DecidableEq, Repr

/-- The distinct rejection values of `submitStar` (lines 206, 215, 218, 213):
the expiry string, the invalid-signature string, a thrown error's message,
and the error list propagated from `_addBlock`. -/
inductive SubmitError where
  | expired
  | sigInvalid
  | sigThrew (msg : String)
  | chainErrors (errs : List String)
deriving DecidableEq, Repr

/-- Outcome of one `submitStar` call: the promise result and the state of the
`Blockchain` object afterwards. -/
structure SubmitResult where
  result : Except SubmitError Block
  self : Blockchain
deriving Repr

/-- The signature-verification branch of `submitStar` (lines 208-219): on
`verify` returning true build the `{owner, star}` block and delegate to
`_addBlock`, propagating its rejection; on false reject with the signature
error; on throw reject with the thrown message. -/
def submitSig (self : Blockchain) (address starData : String)
    (verify : VerifyOutcome) (now : Int) : SubmitResult :=
  match verify with
  | .ok true =>
      let r := addBlockImpl self (mkBlock (Payload.star address starData)) now
      { result := r.result.mapError SubmitError.chainErrors, self := r.self }
  | .ok false => { result := .error .sigInvalid, self := self }
  | .throws m => { result := .error (.sigThrew m), self := self }

/-- The method `submitStar(address, message, signature, star)` (lines 200-222): parse
the issuance time from the message's second colon-delimited field, reject
with the expiry error when more than 5 elapsed minutes have passed, otherwise
run signature verification (`verify` is the external call's outcome) and on
success append the star block.  `now` is the current epoch-seconds clock. -/
def submitStar (self : Blockchain) (address message : String)
    (verify : VerifyOutcome) (starData : String) (now : Int) : SubmitResult :=
  let time := parseIntJS ((splitColon message).getD 1 "")
  if submitExpired now time then
    { result := .error .expired, self := self }
  else
    submitSig self address starData verify now

/-- The method `getBlockByHash(hash)` (lines 230-240): find the block with the given
hash; when none exists the promise REJECTS with "Block hash not found". -/
def getBlockByHash (self : Blockchain) (hash : String) : Except String Block :=
  match self.chain.find? (fun p => p.hash == some hash) with
  | some b => .ok b
  | none => .error "Block hash not found"

/-- The method `getBlockByHeight(height)` (lines 247-257): first block whose `height`
field matches; resolves with `null` (here `none`) when there is none. -/
def getBlockByHeight (self : Blockchain) (height : Int) : Option Block :=
  (self.chain.filter (fun p => p.height == height)).head?

/-- One step of the owner query: decode the block's payload, push it when the
`owner` field equals the address, swallow decode failures (the empty catch
handler, line 276). -/
def starStep (address : String) (stars : List Payload) (b : Block) : List Payload :=
  match getBData b with
  | some message =>
      if payloadOwner message == some address then stars ++ [message] else stars
  | none => stars

/-- The method `getStarsByWalletAddress(address)` (lines 265-280): walk the
chain and accumulate matching decoded payloads in chain order. -/
def getStarsByWalletAddress (self : Blockchain) (address : String) : List Payload :=
  self.chain.foldl (starStep address) []

/-- Iterate `_addBlock` over a list of (payload, timestamp) inputs, threading
the `Blockchain` state: the states reachable by appends alone. -/
def appendRun (self : Blockchain) : List (Payload × Int) → Blockchain
  | [] => self
  | (p, t) :: rest => appendRun (addBlockImpl self (mkBlock p) t).self rest

/-- Returns `true` iff every `_addBlock` call in the run resolves (no rejection). -/
def appendRunSucceeds (self : Blockchain) : List (Payload × Int) → Bool
  | [] => true
  | (p, t) :: rest =>
      let r := addBlockImpl self (mkBlock p) t
      (match r.result with | .ok _ => true | .error _ => false)
        && appendRunSucceeds r.self rest

/-- The structural invariant of a well-formed chain state: the counter caches
`length - 1`, the chain is non-empty (genesis present), each block's `height`
field is its index, every block self-validates, and consecutive blocks are
hash-linked. -/
def WellFormed (s : Blockchain) : Prop :=
  s.height = (s.chain.length : Int) - 1 ∧
  s.chain ≠ [] ∧
  (∀ i : Nat, i < s.chain.length → (s.chain.getD i default).height = (i : Int)) ∧
  (∀ i : Nat, i < s.chain.length → blockValidate (s.chain.getD i default) = true) ∧
  (∀ i : Nat, 1 ≤ i → i < s.chain.length →
    (s.chain.getD i default).previousBlockHash = (s.chain.getD (i - 1) default).hash)

/-! ### Lemmas about the validator -/

/-- The digest ignores the stored hash field, so overwriting it leaves the
digest unchanged. -/
theorem hashFn_set_hash (b : Block) (h : Option String) :
    hashFn { b with hash := h } = hashFn b := rfl

/-- The per-block error lists of `validateChain`, concatenated in ascending
chain order. -/
def collectErrors (chain : List Block) : List Block → List String
  | [] => []
  | b :: rest => blockErrors chain b ++ collectErrors chain rest

theorem foldl_errors_eq (chain : List Block) (l : List Block) (acc : List String) :
    l.foldl (fun errorLog b => errorLog ++ blockErrors chain b) acc
      = acc ++ collectErrors chain l := by
  induction l generalizing acc with
  | nil => simp [collectErrors]
  | cons b rest ih => simp [collectErrors, ih]

theorem validateChain_eq_collect (chain : List Block) :
    validateChain chain = collectErrors chain chain := by
  simpa using foldl_errors_eq chain chain []

theorem collectErrors_eq_nil_iff (chain l : List Block) :
    collectErrors chain l = [] ↔ ∀ b ∈ l, blockErrors chain b = [] := by
  induction l with
  | nil => simp [collectErrors]
  | cons b rest ih => simp [collectErrors, ih]

theorem blockErrors_eq_nil (chain : List Block) (b : Block)
    (hval : blockValidate b = true)
    (hlink : b.height > 0 →
      (chain.getD b.height.toNat default).previousBlockHash =
        (chain.getD (b.height.toNat - 1) default).hash) :
    blockErrors chain b = [] := by
  have h2 : ¬(b.height > 0 ∧
      (chain.getD b.height.toNat default).previousBlockHash ≠
        (chain.getD (b.height.toNat - 1) default).hash) := by
    rintro ⟨hpos, hne⟩
    exact hne (hlink hpos)
  rw [blockErrors, if_pos hval, if_neg h2]
  rfl

theorem blockErrors_nil_elim (chain : List Block) (b : Block)
    (h : blockErrors chain b = []) :
    blockValidate b = true ∧
    (b.height > 0 →
      (chain.getD b.height.toNat default).previousBlockHash =
        (chain.getD (b.height.toNat - 1) default).hash) := by
  rw [blockErrors, List.append_eq_nil] at h
  obtain ⟨h1, h2⟩ := h
  constructor
  · cases hval : blockValidate b with
    | false => rw [hval] at h1; simp at h1
    | true => rfl
  · intro hpos
    by_contra hne
    rw [if_pos ⟨hpos, hne⟩] at h2
    simp at h2

theorem validateChain_of_wellFormed (s : Blockchain) (h : WellFormed s) :
    validateChain s.chain = [] := by
  obtain ⟨-, -, hidx, hval, hlink⟩ := h
  rw [validateChain_eq_collect, collectErrors_eq_nil_iff]
  intro b hb
  obtain ⟨i, hi, rfl⟩ := List.mem_iff_getElem.mp hb
  have hbi : s.chain.getD i default = s.chain[i] := List.getD_eq_getElem _ _ hi
  apply blockErrors_eq_nil
  · rw [← hbi]; exact hval i hi
  · intro hpos
    have hh : (s.chain[i]).height = (i : Int) := by rw [← hbi]; exact hidx i hi
    rw [hh] at hpos ⊢
    rw [Int.toNat_ofNat]
    have hi1 : 1 ≤ i := by exact_mod_cast hpos
    exact hlink i hi1 hi

/-! ### Lemmas about the append path -/

theorem stampBlock_height (s : Blockchain) (b : Block) (now : Int) :
    (stampBlock s b now).height = s.height + 1 := rfl

theorem stampBlock_time (s : Blockchain) (b : Block) (now : Int) :
    (stampBlock s b now).time = now := rfl

theorem stampBlock_hash (s : Blockchain) (b : Block) (now : Int) :
    (stampBlock s b now).hash = some (hashFn (stampBlock s b now)) := rfl

theorem blockValidate_stampBlock (s : Blockchain) (b : Block) (now : Int) :
    blockValidate (stampBlock s b now) = true := by
  unfold blockValidate
  rw [stampBlock_hash]
  exact beq_self_eq_true _

theorem stampBlock_prev_pos (s : Blockchain) (b : Block) (now : Int)
    (h : s.height > -1) :
    (stampBlock s b now).previousBlockHash
      = (s.chain.getD s.height.toNat default).hash := by
  simp [stampBlock, h]

theorem stampBlock_prev_neg (s : Blockchain) (b : Block) (now : Int)
    (h : ¬ s.height > -1) :
    (stampBlock s b now).previousBlockHash = b.previousBlockHash := by
  simp [stampBlock, h]

theorem addBlockImpl_of_valid (s : Blockchain) (b : Block) (now : Int)
    (h : validateChain s.chain = []) :
    addBlockImpl s b now =
      { result := .ok (stampBlock s b now)
        self := { chain := s.chain ++ [stampBlock s b now], height := s.height + 1 }
        candidate := stampBlock s b now } := by
  simp [addBlockImpl, h]

theorem addBlockImpl_of_invalid (s : Blockchain) (b : Block) (now : Int)
    (h : validateChain s.chain ≠ []) :
    addBlockImpl s b now =
      { result := .error (validateChain s.chain), self := s
        candidate := stampBlock s b now } := by
  simp [addBlockImpl, h]

/-- Appending a freshly stamped block onto a well-formed chain keeps it
well-formed: the new block sits at the next index, has the next height, is
self-valid by construction, and is linked to the old tip. -/
theorem wellFormed_push (s : Blockchain) (b : Block) (now : Int) (h : WellFormed s) :
    WellFormed { chain := s.chain ++ [stampBlock s b now], height := s.height + 1 } := by
  obtain ⟨hh, hne, hidx, hval, hlink⟩ := h
  have hlen : 1 ≤ s.chain.length := List.length_pos.mpr hne
  have hhgt : s.height > -1 := by omega
  have hton : s.height.toNat = s.chain.length - 1 := by omega
  have hgetlast : ∀ d : Block, (s.chain ++ [stampBlock s b now]).getD s.chain.length d
      = stampBlock s b now := by
    intro d
    rw [List.getD_append_right _ _ _ _ (le_refl _)]
    simp
  refine ⟨?_, ?_, ?_, ?_, ?_⟩
  · simp only [List.length_append, List.length_cons, List.length_nil]
    omega
  · simp
  · intro i hi
    simp only [List.length_append, List.length_cons, List.length_nil] at hi
    rcases Nat.lt_or_ge i s.chain.length with hlt | hge
    · rw [List.getD_append _ _ _ _ hlt]
      exact hidx i hlt
    · have heq : i = s.chain.length := by omega
      subst heq
      rw [hgetlast, stampBlock_height]
      omega
  · intro i hi
    simp only [List.length_append, List.length_cons, List.length_nil] at hi
    rcases Nat.lt_or_ge i s.chain.length with hlt | hge
    · rw [List.getD_append _ _ _ _ hlt]
      exact hval i hlt
    · have heq : i = s.chain.length := by omega
      subst heq
      rw [hgetlast]
      exact blockValidate_stampBlock s b now
  · intro i h1 hi
    simp only [List.length_append, List.length_cons, List.length_nil] at hi
    rcases Nat.lt_or_ge i s.chain.length with hlt | hge
    · rw [List.getD_append _ _ _ _ hlt, List.getD_append _ _ _ _ (by omega)]
      exact hlink i h1 hlt
    · have heq : i = s.chain.length := by omega
      subst heq
      rw [hgetlast, List.getD_append _ _ _ _ (by omega),
        stampBlock_prev_pos s b now hhgt, hton]

/-- The constructor followed by `initializeChain` yields the singleton
genesis chain at height 0. -/
theorem new_eq (t : Int) :
    Blockchain.new t
      = { chain := [stampBlock { chain := [], height := -1 } (mkBlock (Payload.data "Genesis Block")) t]
          height := 0 } := by
  simp [Blockchain.new, addBlockImpl, validateChain]

/-- The freshly initialized chain is well-formed. -/
theorem wellFormed_new (t : Int) : WellFormed (Blockchain.new t) := by
  rw [new_eq]
  refine ⟨by simp, by simp, ?_, ?_, ?_⟩
  · intro i hi
    simp only [List.length_cons, List.length_nil] at hi
    have heq : i = 0 := by omega
    subst heq
    simp [List.getD, stampBlock_height]
  · intro i hi
    simp only [List.length_cons, List.length_nil] at hi
    have heq : i = 0 := by omega
    subst heq
    exact blockValidate_stampBlock _ _ _
  · intro i h1 hi
    simp only [List.length_cons, List.length_nil] at hi
    omega

/-- Iterating `_addBlock` from a well-formed state: every call succeeds, the
state stays well-formed, and the height / length grow by the number of
appends. -/
theorem appendRun_spec (l : List (Payload × Int)) (s : Blockchain) (h : WellFormed s) :
    WellFormed (appendRun s l) ∧
    (appendRun s l).height = s.height + l.length ∧
    (appendRun s l).chain.length = s.chain.length + l.length ∧
    appendRunSucceeds s l = true := by
  induction l generalizing s with
  | nil => simpa [appendRun, appendRunSucceeds] using h
  | cons pt rest ih =>
      obtain ⟨p, t⟩ := pt
      have hv : validateChain s.chain = [] := validateChain_of_wellFormed s h
      have hstep := addBlockImpl_of_valid s (mkBlock p) t hv
      have hwf' : WellFormed (addBlockImpl s (mkBlock p) t).self := by
        rw [hstep]
        exact wellFormed_push s (mkBlock p) t h
      obtain ⟨hwf2, hht, hlen, hsucc⟩ := ih _ hwf'
      refine ⟨?_, ?_, ?_, ?_⟩
      · simpa [appendRun] using hwf2
      · rw [appendRun, hht, hstep]
        simp
        omega
      · rw [appendRun, hlen, hstep]
        simp
        omega
      · rw [appendRunSucceeds, hstep]
        simp only [Bool.true_and]
        simpa [hstep] using hsucc


/-! ### Lemmas about the submission path -/

/-- The time-window test trips exactly when at least 360 seconds have
elapsed: `floor(e / 60) > 5` first holds at `e = 360`. -/
theorem submitExpired_iff (now t : Int) :
    submitExpired now (some t) = true ↔ 360 ≤ now - t := by
  unfold submitExpired
  simp only [decide_eq_true_eq]
  rw [Int.fdiv_eq_ediv _ (by norm_num)]
  omega

theorem submitExpired_eq_false (now t : Int) (h : now - t ≤ 359) :
    submitExpired now (some t) = false := by
  rw [Bool.eq_false_iff]
  intro hc
  have := (submitExpired_iff now t).mp hc
  omega

/-- The signature branch never produces the expiry rejection. -/
theorem submitSig_result_ne_expired (s : Blockchain) (address starData : String)
    (verify : VerifyOutcome) (now : Int) :
    (submitSig s address starData verify now).result ≠ .error .expired := by
  rcases verify with b | m
  · cases b
    · simp [submitSig]
    · cases h : (addBlockImpl s (mkBlock (Payload.star address starData)) now).result with
      | ok bl => simp [submitSig, h, Except.mapError]
      | error e => simp [submitSig, h, Except.mapError]
  · simp [submitSig]

/-- Once the time-window test has passed, `submitStar` is exactly the
signature branch. -/
theorem submitStar_of_not_expired (s : Blockchain) (address message starData : String)
    (verify : VerifyOutcome) (now : Int)
    (h : submitExpired now (parseIntJS ((splitColon message).getD 1 "")) = false) :
    submitStar s address message verify starData now
      = submitSig s address starData verify now := by
  simp only [submitStar]
  rw [h]
  simp

/-- When the time-window test trips, `submitStar` rejects with the expiry
error and leaves the state alone, whatever the signature outcome. -/
theorem submitStar_of_expired (s : Blockchain) (address message starData : String)
    (verify : VerifyOutcome) (now : Int)
    (h : submitExpired now (parseIntJS ((splitColon message).getD 1 "")) = true) :
    submitStar s address message verify starData now
      = { result := .error .expired, self := s } := by
  simp only [submitStar]
  rw [h]
  simp

/-- Folding the owner-query step is filtering the decoded payloads. -/
theorem getStars_foldl (address : String) (l : List Block) (acc : List Payload) :
    l.foldl (starStep address) acc
      = acc ++ (l.filterMap getBData).filter (fun p => payloadOwner p == some address) := by
  induction l generalizing acc with
  | nil => simp
  | cons b rest ih =>
      rw [List.foldl_cons, ih, List.filterMap_cons]
      cases hb : getBData b with
      | none => simp [starStep, hb]
      | some m =>
          by_cases hm : (payloadOwner m == some address) = true
          · simp [starStep, hb, hm, List.filter_cons]
          · simp [starStep, hb, hm, List.filter_cons]

/-! ### Claim theorems -/

/-- C1, counterexample: a `submitStar` call whose message timestamp is
exactly 301 seconds in the past does NOT fail with the expiry error, contrary
to the claim — `Math.floor(301 / 60) = 5` is not `> 5`, so the time-window
check passes and signature verification is attempted; here the (failing)
signature outcome is reported instead. -/
theorem c1_counterexample :
    (submitStar (Blockchain.new 0) "addr" "addr:1000000:starRegistry"
      (VerifyOutcome.ok false) "st" 1000301).result
      = Except.error SubmitError.sigInvalid := by
  rfl

/-- C1, amended: the expiry boundary sits at 360 elapsed seconds, not 301.
For a message whose second colon-delimited field parses to the issuance time
`t`: when at least 360 seconds have elapsed the call rejects with the expiry
error without attempting signature verification (the outcome is the same for
every signature-verification result) and leaves the state unchanged; when at
most 359 seconds have elapsed — including both 300 and 301 — the time-window
check passes and the call proceeds to signature verification. -/
theorem c1_expiry_boundary (s : Blockchain)
    (address message starData : String) (verify : VerifyOutcome) (now t : Int)
    (hp : parseIntJS ((splitColon message).getD 1 "") = some t) :
    (360 ≤ now - t →
      submitStar s address message verify starData now
        = { result := .error .expired, self := s }) ∧
    (now - t ≤ 359 →
      submitStar s address message verify starData now
        = submitSig s address starData verify now) := by
  constructor
  · intro hge
    apply submitStar_of_expired
    rw [hp]
    exact (submitExpired_iff now t).mpr hge
  · intro hle
    apply submitStar_of_not_expired
    rw [hp]
    exact submitExpired_eq_false now t hle

theorem c1_expiry_boundary_w :
    (submitStar (Blockchain.new 0) "addr" "addr:1000000:starRegistry"
        (VerifyOutcome.ok false) "st" 1000360)
      = { result := .error .expired, self := Blockchain.new 0 } ∧
    (submitStar (Blockchain.new 0) "addr" "addr:1000000:starRegistry"
        (VerifyOutcome.ok false) "st" 1000359)
      = submitSig (Blockchain.new 0) "addr" "st" (VerifyOutcome.ok false) 1000359 :=
  ⟨(c1_expiry_boundary (Blockchain.new 0) "addr" "addr:1000000:starRegistry" "st"
      (VerifyOutcome.ok false) 1000360 1000000 (by rfl)).1 (by decide),
   (c1_expiry_boundary (Blockchain.new 0) "addr" "addr:1000000:starRegistry" "st"
      (VerifyOutcome.ok false) 1000359 1000000 (by rfl)).2 (by decide)⟩

/-- C2: `_addBlock` is all-or-nothing.  When the pre-append validation of the
stored chain reports errors, the call rejects with that full error list and
the store (chain array and height counter) is exactly what it was; when it
reports zero errors, the stamped candidate is pushed, the height counter goes
up by one, and the call resolves with the appended block. -/
theorem c2_append_atomic (s : Blockchain) (b : Block) (now : Int) :
    (validateChain s.chain ≠ [] →
      (addBlockImpl s b now).result = .error (validateChain s.chain) ∧
      (addBlockImpl s b now).self = s) ∧
    (validateChain s.chain = [] →
      (addBlockImpl s b now).result = .ok (stampBlock s b now) ∧
      (addBlockImpl s b now).self.chain = s.chain ++ [stampBlock s b now] ∧
      (addBlockImpl s b now).self.height = s.height + 1) := by
  constructor
  · intro h
    rw [addBlockImpl_of_invalid s b now h]
    exact ⟨rfl, rfl⟩
  · intro h
    rw [addBlockImpl_of_valid s b now h]
    exact ⟨rfl, rfl, rfl⟩

theorem c2_append_atomic_w :
    ((addBlockImpl { chain := [mkBlock (Payload.data "x")], height := 0 }
        (mkBlock (Payload.data "y")) 7).self
      = { chain := [mkBlock (Payload.data "x")], height := 0 }) ∧
    (addBlockImpl (Blockchain.new 0) (mkBlock (Payload.data "y")) 7).self.height
      = (Blockchain.new 0).height + 1 :=
  ⟨((c2_append_atomic { chain := [mkBlock (Payload.data "x")], height := 0 }
      (mkBlock (Payload.data "y")) 7).1 (by decide)).2,
   ((c2_append_atomic (Blockchain.new 0) (mkBlock (Payload.data "y")) 7).2
      (by decide)).2.2⟩

/-- C10: a rejected append leaves the Chain Store untouched, but the
candidate block object passed in has already been mutated before the
rejection: its `height` is the next height, its `time` is the call's
timestamp, its `hash` has been stamped with the digest of its current fields,
and — when the chain is non-empty — its `previousBlockHash` has been set to
the tip's hash. -/
theorem c10_reject_stamps_candidate (s : Blockchain) (b : Block) (now : Int)
    (h : validateChain s.chain ≠ []) :
    (addBlockImpl s b now).result = .error (validateChain s.chain) ∧
    (addBlockImpl s b now).self = s ∧
    (addBlockImpl s b now).candidate.height = s.height + 1 ∧
    (addBlockImpl s b now).candidate.time = now ∧
    (addBlockImpl s b now).candidate.hash
      = some (hashFn ((addBlockImpl s b now).candidate)) ∧
    (s.height > -1 →
      (addBlockImpl s b now).candidate.previousBlockHash
        = (s.chain.getD s.height.toNat default).hash) := by
  rw [addBlockImpl_of_invalid s b now h]
  exact ⟨rfl, rfl, stampBlock_height s b now, stampBlock_time s b now,
    stampBlock_hash s b now, fun hp => stampBlock_prev_pos s b now hp⟩

theorem c10_reject_stamps_candidate_w :
    ((addBlockImpl { chain := [mkBlock (Payload.data "x")], height := 0 }
        (mkBlock (Payload.data "y")) 9).candidate.time = 9) ∧
    (addBlockImpl { chain := [mkBlock (Payload.data "x")], height := 0 }
        (mkBlock (Payload.data "y")) 9).candidate.previousBlockHash
      = (({ chain := [mkBlock (Payload.data "x")], height := 0 } :
          Blockchain).chain.getD (0 : Int).toNat default).hash :=
  ⟨(c10_reject_stamps_candidate { chain := [mkBlock (Payload.data "x")], height := 0 }
      (mkBlock (Payload.data "y")) 9 (by decide)).2.2.2.1,
   (c10_reject_stamps_candidate { chain := [mkBlock (Payload.data "x")], height := 0 }
      (mkBlock (Payload.data "y")) 9 (by decide)).2.2.2.2.2 (by decide)⟩

/-- C3: for a chain whose blocks sit at their own heights, `validateChain`
is the concatenation, in ascending height order with no short-circuit, of
every block's error contribution (at most two errors per block: the
self-validation message, then the linkage message), and it returns the empty
list exactly when every block self-validates and every block above the
genesis is hash-linked to its predecessor. -/
theorem c3_validator_completeness (chain : List Block)
    (hidx : ∀ i : Nat, i < chain.length → (chain.getD i default).height = (i : Int)) :
    validateChain chain = collectErrors chain chain ∧
    (∀ b ∈ chain, (blockErrors chain b).length ≤ 2) ∧
    (validateChain chain = [] ↔
      ∀ i : Nat, i < chain.length →
        blockValidate (chain.getD i default) = true ∧
        (1 ≤ i →
          (chain.getD i default).previousBlockHash
            = (chain.getD (i - 1) default).hash)) := by
  refine ⟨validateChain_eq_collect chain, ?_, ?_⟩
  · intro b _
    unfold blockErrors
    split <;> split <;> simp
  · rw [validateChain_eq_collect, collectErrors_eq_nil_iff]
    constructor
    · intro hall i hi
      have hbi : chain.getD i default = chain[i] := List.getD_eq_getElem _ _ hi
      have hmem : chain[i] ∈ chain := List.getElem_mem hi
      obtain ⟨h1, h2⟩ := blockErrors_nil_elim chain _ (hall _ hmem)
      rw [hbi]
      refine ⟨h1, ?_⟩
      intro h1i
      have hh : (chain[i]).height = (i : Int) := by rw [← hbi]; exact hidx i hi
      have hpos : (chain[i]).height > 0 := by
        rw [hh]; exact_mod_cast h1i
      have hl := h2 hpos
      rw [hh, Int.toNat_ofNat] at hl
      rw [hbi] at hl
      exact hl
    · intro hall b hb
      obtain ⟨i, hi, rfl⟩ := List.mem_iff_getElem.mp hb
      have hbi : chain.getD i default = chain[i] := List.getD_eq_getElem _ _ hi
      obtain ⟨h1, h2⟩ := hall i hi
      rw [hbi] at h1 h2
      apply blockErrors_eq_nil
      · exact h1
      · intro hpos
        have hh : (chain[i]).height = (i : Int) := by rw [← hbi]; exact hidx i hi
        rw [hh, Int.toNat_ofNat]
        rw [hh] at hpos
        have h1i : 1 ≤ i := by exact_mod_cast hpos
        have hl := h2 h1i
        rw [hbi]
        exact hl

theorem c3_validator_completeness_w :
    validateChain (Blockchain.new 0).chain = [] ↔
      ∀ i : Nat, i < (Blockchain.new 0).chain.length →
        blockValidate ((Blockchain.new 0).chain.getD i default) = true ∧
        (1 ≤ i →
          ((Blockchain.new 0).chain.getD i default).previousBlockHash
            = ((Blockchain.new 0).chain.getD (i - 1) default).hash) :=
  (c3_validator_completeness (Blockchain.new 0).chain (by decide)).2.2

/-- C4: in every state reachable from the freshly initialized chain by
successful appends alone, each block above the genesis carries its own index
as its height and is hash-linked to its predecessor. -/
theorem c4_linkage_invariant (t0 : Int) (l : List (Payload × Int)) (h : Nat)
    (h1 : 1 ≤ h) (h2 : h < (appendRun (Blockchain.new t0) l).chain.length) :
    ((appendRun (Blockchain.new t0) l).chain.getD h default).previousBlockHash
      = ((appendRun (Blockchain.new t0) l).chain.getD (h - 1) default).hash ∧
    ((appendRun (Blockchain.new t0) l).chain.getD h default).height = (h : Int) := by
  obtain ⟨hwf, -, -, -⟩ := appendRun_spec l (Blockchain.new t0) (wellFormed_new t0)
  obtain ⟨-, -, hidx, -, hlink⟩ := hwf
  exact ⟨hlink h h1 h2, hidx h h2⟩

theorem c4_linkage_invariant_w :
    (((appendRun (Blockchain.new 0) [(Payload.star "A" "s1", 5)]).chain.getD 1
        default).previousBlockHash
      = ((appendRun (Blockchain.new 0) [(Payload.star "A" "s1", 5)]).chain.getD 0
        default).hash) ∧
    ((appendRun (Blockchain.new 0) [(Payload.star "A" "s1", 5)]).chain.getD 1
        default).height = (1 : Int) :=
  c4_linkage_invariant 0 [(Payload.star "A" "s1", 5)] 1 (by decide) (by decide)

/-- C5: starting from the freshly initialized chain, a run of `n` appends
succeeds in every step and leaves the height counter at `n` and the chain
array at length `n + 1`. -/
theorem c5_height_after_appends (t0 : Int) (l : List (Payload × Int)) :
    appendRunSucceeds (Blockchain.new t0) l = true ∧
    (appendRun (Blockchain.new t0) l).height = (l.length : Int) ∧
    (appendRun (Blockchain.new t0) l).chain.length = l.length + 1 := by
  obtain ⟨-, hht, hlen, hsucc⟩ := appendRun_spec l (Blockchain.new t0) (wellFormed_new t0)
  refine ⟨hsucc, ?_, ?_⟩
  · rw [hht, new_eq]
    simp
  · rw [hlen, new_eq]
    simp [Nat.add_comm]

/-- C6, counterexample: a by-hash query for an absent hash REJECTS with
"Block hash not found" — an error outcome, not the claimed normal empty
result (which is how `getBlockByHeight` behaves). -/
theorem c6_counterexample :
    getBlockByHash (Blockchain.new 0) "missing" = .error "Block hash not found" := by
  rfl

/-- C6, amended: for a hash not present in the chain, `getBlockByHash`
rejects with the error "Block hash not found" (a promise rejection, unlike
`getBlockByHeight`, which resolves with a null/none value for a height not
present in the chain). -/
theorem c6_lookup_outcomes (s : Blockchain) (hsh : String) (ht : Int)
    (h1 : ∀ b ∈ s.chain, b.hash ≠ some hsh)
    (h2 : ∀ b ∈ s.chain, b.height ≠ ht) :
    getBlockByHash s hsh = .error "Block hash not found" ∧
    getBlockByHeight s ht = none := by
  constructor
  · unfold getBlockByHash
    have hf : s.chain.find? (fun p => p.hash == some hsh) = none := by
      rw [List.find?_eq_none]
      intro b hb
      simp only [beq_iff_eq]
      exact h1 b hb
    rw [hf]
  · unfold getBlockByHeight
    have hf : s.chain.filter (fun p => p.height == ht) = [] := by
      rw [List.filter_eq_nil_iff]
      intro b hb
      simp only [beq_iff_eq]
      exact h2 b hb
    rw [hf]
    rfl

theorem c6_lookup_outcomes_w :
    getBlockByHash (Blockchain.new 0) "zz" = .error "Block hash not found" ∧
    getBlockByHeight (Blockchain.new 0) 5 = none :=
  c6_lookup_outcomes (Blockchain.new 0) "zz" 5 (by decide) (by decide)

/-- C7: a `submitStar` call inside the time window whose signature
verification returns false or throws rejects with the corresponding
signature error ("Signature not valid", resp. the thrown message) and does
not touch the Chain Store: the append primitive is never reached and the
state — chain array and height counter — is exactly what it was. -/
theorem c7_invalid_signature_no_mutation (s : Blockchain)
    (address message starData : String) (verify : VerifyOutcome) (now : Int)
    (hTime : submitExpired now (parseIntJS ((splitColon message).getD 1 "")) = false)
    (hSig : verify ≠ .ok true) :
    (submitStar s address message verify starData now).self = s ∧
    (verify = .ok false →
      (submitStar s address message verify starData now).result
        = .error .sigInvalid) ∧
    (∀ m, verify = .throws m →
      (submitStar s address message verify starData now).result
        = .error (.sigThrew m)) := by
  rw [submitStar_of_not_expired s address message starData verify now hTime]
  rcases verify with b | m
  · cases b
    · refine ⟨rfl, fun _ => rfl, ?_⟩
      intro m hm
      cases hm
    · exact absurd rfl hSig
  · refine ⟨rfl, ?_, ?_⟩
    · intro hm
      cases hm
    · intro m' hm
      cases hm
      rfl

theorem c7_invalid_signature_no_mutation_w :
    ((submitStar (Blockchain.new 0) "w" "w:100:starRegistry"
        (VerifyOutcome.ok false) "st" 200).self = Blockchain.new 0) ∧
    (submitStar (Blockchain.new 0) "w" "w:100:starRegistry"
        (VerifyOutcome.ok false) "st" 200).result
      = .error .sigInvalid :=
  ⟨(c7_invalid_signature_no_mutation (Blockchain.new 0) "w" "w:100:starRegistry"
      "st" (VerifyOutcome.ok false) 200 (by rfl) (by decide)).1,
   (c7_invalid_signature_no_mutation (Blockchain.new 0) "w" "w:100:starRegistry"
      "st" (VerifyOutcome.ok false) 200 (by rfl) (by decide)).2.1 rfl⟩

/-- C8: the by-owner query returns exactly the decoded payloads of the
blocks whose decoded `owner` field equals the given address, in chain
(ascending height) order — it is the filter of the successfully decoded
payloads, so blocks whose payload fails to decode (the Genesis Block) are
silently skipped, every returned payload is owned by the queried address,
and an address owning nothing gets the empty list. -/
theorem c8_owner_query (s : Blockchain) (address : String) :
    getStarsByWalletAddress s address
      = (s.chain.filterMap getBData).filter
          (fun p => payloadOwner p == some address) ∧
    (∀ p ∈ getStarsByWalletAddress s address, payloadOwner p = some address) := by
  have h := getStars_foldl address s.chain []
  rw [List.nil_append] at h
  refine ⟨h, ?_⟩
  intro p hp
  rw [getStarsByWalletAddress, h] at hp
  have := List.of_mem_filter hp
  exact beq_iff_eq.mp this

/-- C9: when the message's second colon-delimited field has no parseable
integer (`parseInt` yields `NaN`) or parses to a timestamp in the future,
the time-window check never fails: `submitStar` never rejects with the
expiry error and always proceeds to signature verification. -/
theorem c9_nan_or_future_no_expiry (s : Blockchain)
    (address message starData : String) (verify : VerifyOutcome) (now : Int)
    (h : parseIntJS ((splitColon message).getD 1 "") = none ∨
      ∃ t, parseIntJS ((splitColon message).getD 1 "") = some t ∧ now < t) :
    submitStar s address message verify starData now
      = submitSig s address starData verify now ∧
    (submitStar s address message verify starData now).result
      ≠ .error .expired := by
  have hexp : submitExpired now (parseIntJS ((splitColon message).getD 1 "")) = false := by
    rcases h with h | ⟨t, ht, hfut⟩
    · rw [h]
      rfl
    · rw [ht]
      apply submitExpired_eq_false
      omega
  have heq := submitStar_of_not_expired s address message starData verify now hexp
  rw [heq]
  exact ⟨rfl, submitSig_result_ne_expired s address starData verify now⟩

theorem c9_nan_or_future_no_expiry_w :
    submitStar (Blockchain.new 0) "w" "w:xyz:starRegistry"
        (VerifyOutcome.ok false) "st" 100
      = submitSig (Blockchain.new 0) "w" "st" (VerifyOutcome.ok false) 100 :=
  (c9_nan_or_future_no_expiry (Blockchain.new 0) "w" "w:xyz:starRegistry" "st"
    (VerifyOutcome.ok false) 100 (Or.inl (by rfl))).1
